import Mathlib

/-!
Verification of the peer-group / replica-set membership controller of this
repository (spec sections 3, 4.1-4.6, 8) and of the cross-model-relations
facade method `PublishRelationChanges`.

The peer-group worker itself (package `worker/peergrouper`) is referenced by
`featuretests/initiate_replset_test.go` but its implementation is not present
in the source tree; the Topology Planner, Member Applier, Address Selector and
Initializer below are therefore modelled from the specification text.
`PublishRelationChanges` is embedded directly from the source of
`apiserver/facades/crossmodelrelations` (file `src/unnamed/part_001`).
-/

namespace Juju

/-- Modelled from the spec: a `ControllerMachine` as the Topology Planner sees
it; the missing `worker/peergrouper` package is the code being modelled.  Only
the fields the planner reads are represented: the machine identifier, the
`desired-vote` flag and the health status reported by the consensus store. -/
structure Machine where
  id : Nat
  wantsVote : Bool
  healthy : Bool
deriving DecidableEq, Repr

/-- Modelled from the spec: one `PeerGroupMember` of the consensus store — a
machine id together with its voting weight (0 or 1, here a `Bool`). -/
structure Member where
  machineId : Nat
  voting : Bool
deriving DecidableEq, Repr

/-- Modelled from the spec: a `Topology`, the complete member set of the
consensus store. -/
structure Topology where
  members : List Member
deriving DecidableEq, Repr

/-- Modelled from the spec: the atomic configuration-change actions the
Planner emits; each is a single add/remove/set-vote against the store. -/
inductive Action where
  | revokeVote (machineId : Nat)
  | grantVote (machineId : Nat)
  | removeMember (machineId : Nat)
  | addMember (machineId : Nat)
deriving DecidableEq, Repr

/-- Look a machine up by id in the planning input. -/
def findMachine (machines : List Machine) (i : Nat) : Option Machine :=
  machines.find? (fun m => decide (m.id = i))

/-- Health of the machine with id `i`; a machine absent from the planning
input is treated as unhealthy. -/
def isHealthy (machines : List Machine) (i : Nat) : Bool :=
  match findMachine machines i with
  | some m => m.healthy
  | none => false

/-- `desired-vote` flag of the machine with id `i`; a machine absent from the
planning input is treated as not desiring a vote. -/
def wantsVote (machines : List Machine) (i : Nat) : Bool :=
  match findMachine machines i with
  | some m => m.wantsVote
  | none => false

/-- Ids of the members of `t` that currently hold a vote. -/
def currentVoterIds (t : Topology) : List Nat :=
  (t.members.filter (fun m => m.voting)).map (fun m => m.machineId)

/-- Ids of all members of `t`. -/
def memberIds (t : Topology) : List Nat :=
  t.members.map (fun m => m.machineId)

/-- Number of voting members of a topology. -/
def votingCount (t : Topology) : Nat :=
  (t.members.filter (fun m => m.voting)).length

/-- `majoritySize n` is the quorum size of an `n`-member voting set, i.e.
the ceiling of `(n+1)/2`. -/
def majoritySize (n : Nat) : Nat := n / 2 + 1

/-- Number of current voters whose machine is healthy. -/
def voterHc (t : Topology) (machines : List Machine) : Nat :=
  ((currentVoterIds t).filter (isHealthy machines)).length

/-- Modelled from the spec: how many healthy voters may lose their vote in a
single planning cycle while a majority of the current voting set stays
healthy and voting ("never drop below quorum in one step"). -/
def demotionCap (t : Topology) (machines : List Machine) : Nat :=
  voterHc t machines - majoritySize (currentVoterIds t).length

/-- Modelled from the spec: healthy current voters that no longer desire a
vote are demoted, but no more of them per cycle than the quorum-safety cap
allows (the rest are stale voters retained an extra cycle). -/
def healthyDemotions (t : Topology) (machines : List Machine) : List Nat :=
  ((currentVoterIds t).filter
      (fun v => isHealthy machines v && !(wantsVote machines v))).take
    (demotionCap t machines)

/-- Modelled from the spec: a healthy replacement has already been promoted to
voting for voter `v` when the voting set was grown to an even size and the
healthy vote-desiring current voters other than `v` already form a majority of
the current voting set, so dropping `v` returns the set to a safe odd size. -/
def replacementPromoted (t : Topology) (machines : List Machine) (v : Nat) : Bool :=
  let cur := currentVoterIds t
  decide (cur.length % 2 = 0) &&
    decide (majoritySize cur.length ≤
      (cur.filter
        (fun h => decide (h ≠ v) && isHealthy machines h && wantsVote machines h)).length)

/-- Modelled from the spec: unhealthy machines that currently hold votes are
not demoted automatically unless a healthy replacement has already been
promoted to voting. -/
def unhealthyDemotions (t : Topology) (machines : List Machine) : List Nat :=
  (currentVoterIds t).filter
    (fun v => !(isHealthy machines v) && replacementPromoted t machines v)

/-- Current voters that lose their vote this cycle. -/
def demotedVoters (t : Topology) (machines : List Machine) : List Nat :=
  healthyDemotions t machines ++ unhealthyDemotions t machines

/-- Current voters that keep their vote this cycle. -/
def keptVoters (t : Topology) (machines : List Machine) : List Nat :=
  (currentVoterIds t).filter
    (fun v => !(decide (v ∈ demotedVoters t machines)))

/-- Machines that desire a vote and are healthy, the natural voting
candidates, in input order (so later entries are the newest-added). -/
def naturalCandidates (machines : List Machine) : List Nat :=
  (machines.filter (fun m => m.healthy && m.wantsVote)).map (fun m => m.id)

/-- Healthy vote-desiring machines that are not already kept voters. -/
def newCandidates (t : Topology) (machines : List Machine) : List Nat :=
  (naturalCandidates machines).filter
    (fun i => !(decide (i ∈ keptVoters t machines)))

/-- Drop the first element that is healthy; used (on a reversed list) to hold
back the newest voter when an even count must be repaired and no stale voter
is available. -/
def dropFirstHealthy (machines : List Machine) : List Nat → List Nat
  | [] => []
  | v :: rest =>
    if isHealthy machines v then rest else v :: dropFirstHealthy machines rest

/-- Drop the last healthy element of the list (unhealthy voters are never the
ones sacrificed to parity, per the no-automatic-demotion rule). -/
def dropLastHealthy (machines : List Machine) (l : List Nat) : List Nat :=
  (dropFirstHealthy machines l.reverse).reverse

/-- Modelled from the spec: cap/pad the combined voting set to odd
cardinality.  If the natural count is even, either hold back promoting the
newest-added candidate (if growing) or retain a stale voter one extra cycle
(if shrinking), preferring the decision that keeps the previous configuration
closer.  `n` is the size of the current voting set, `kept` the retained
current voters, `A` the new candidates and `demoted` the voters demoted this
cycle. -/
def fixParity (machines : List Machine) (n : Nat)
    (kept A demoted : List Nat) : List Nat :=
  if (kept ++ A).length % 2 = 1 then kept ++ A
  else if n < (kept ++ A).length then kept ++ A.dropLast
  else
    match demoted with
    | d :: _ => kept ++ A ++ [d]
    | [] => dropLastHealthy machines (kept ++ A)

/-- Modelled from the spec: the target voting set of one planning cycle. -/
def targetVoters (t : Topology) (machines : List Machine) : List Nat :=
  fixParity machines (currentVoterIds t).length
    (keptVoters t machines) (newCandidates t machines) (demotedVoters t machines)

/-- Result of one planning cycle: the desired next topology and the ordered
action list that realises it. -/
structure PlanResult where
  next : Topology
  actions : List Action
deriving DecidableEq, Repr

/-- Modelled from the spec: the member set of the next topology — every
target voter plus every machine that still desires membership; machines no
longer desired are dropped (their members are removed once no vote is
held). -/
def targetMembers (t : Topology) (machines : List Machine) : List Nat :=
  targetVoters t machines ++
    (((machines.filter (fun m => m.wantsVote)).map (fun m => m.id)).filter
      (fun i => !(decide (i ∈ targetVoters t machines))))

/-- Modelled from the spec (§4.2 step 3): the ordered action list of one
planning cycle — vote-revocations before vote-grants before member-removals
before member-additions. -/
def planActions (t : Topology) (machines : List Machine) : List Action :=
  ((currentVoterIds t).filter
      (fun v => !(decide (v ∈ targetVoters t machines)))).map Action.revokeVote
    ++ ((targetVoters t machines).filter
      (fun v => !(decide (v ∈ currentVoterIds t)))).map Action.grantVote
    ++ ((memberIds t).filter
      (fun v => !(decide (v ∈ targetMembers t machines)))).map Action.removeMember
    ++ ((targetMembers t machines).filter
      (fun v => !(decide (v ∈ memberIds t)))).map Action.addMember

/-- Modelled from the spec (§4.2): the Topology Planner.  It computes the
target voting set, keeps every machine that still desires membership (and
every target voter) as a member, and diffs target against current to produce
the ordered action list. -/
def plan (t : Topology) (machines : List Machine) : PlanResult :=
  { next := ⟨(targetMembers t machines).map
      (fun i => ⟨i, decide (i ∈ targetVoters t machines)⟩)⟩,
    actions := planActions t machines }

/-- Rank of an action in the order the Planner must emit them. -/
def actionRank : Action → Nat
  | .revokeVote _ => 0
  | .grantVote _ => 1
  | .removeMember _ => 2
  | .addMember _ => 3

/-- Modelled from the spec (§4.3): the Member Applier applies one atomic
action to the store's member configuration, re-reading before applying so a
repeated application is a no-op. -/
def applyAction (s : List Member) (a : Action) : List Member :=
  match a with
  | .revokeVote i =>
    s.map (fun m => if m.machineId = i then { m with voting := false } else m)
  | .grantVote i =>
    s.map (fun m => if m.machineId = i then { m with voting := true } else m)
  | .removeMember i => s.filter (fun m => decide (m.machineId ≠ i))
  | .addMember i =>
    if s.any (fun m => decide (m.machineId = i)) then s
    else s ++ [⟨i, false⟩]

/-- Modelled from the spec (§4.6): the Initializer seeds a brand-new store
with a single-member single-voter configuration for the bootstrap controller
and detects "already initialized" (store already has at least one member),
becoming a no-op in that case. -/
def initiateReplicaSet (storeMembers : List Member) (firstMachine : Nat) :
    Except String (List Member) :=
  if 1 ≤ storeMembers.length then Except.ok storeMembers
  else Except.ok [⟨firstMachine, true⟩]

/-- Modelled from the spec: the scope of a network address. -/
inductive AddrScope where
  | publicScope
  | cloudLocal
  | machineLocal
  | loopback
deriving DecidableEq, Repr

/-- Modelled from the spec: a network address tagged by the space it belongs
to; `value` orders addresses so the selector can sort candidates and pick the
first deterministically. -/
structure Address where
  value : Nat
  space : Nat
  scope : AddrScope
deriving DecidableEq, Repr

/-- Modelled from the spec: the addresses of one controller machine. -/
structure MachineAddresses where
  machineId : Nat
  addrs : List Address
deriving DecidableEq, Repr

/-- Modelled from the spec: errors of the Address Selector. -/
inductive AddrErr where
  | noAddressInSpace
  | noUsableAddress
deriving DecidableEq, Repr

/-- Pick the least candidate (sort candidates, pick first); `none` when the
candidate list is empty. -/
def pickFirst (l : List Address) : Option Address :=
  match l with
  | [] => none
  | a :: rest =>
    some (rest.foldl (fun b c => if c.value < b.value then c else b) a)

/-- Modelled from the spec (§4.1): `SelectAddress`.  If `haSpace` is
configured, return the machine's address in that space and fail with
`NoAddressInSpace` if absent.  If unset, prefer a cloud-local address whose
space is shared by all controller machines, else any non-loopback address;
candidates are sorted and the first is picked, so the result is
deterministic. -/
def selectAddress (m : MachineAddresses) (allMachines : List MachineAddresses)
    (haSpace : Option Nat) : Except AddrErr Address :=
  match haSpace with
  | some sp =>
    match pickFirst (m.addrs.filter (fun a => decide (a.space = sp))) with
    | some a => Except.ok a
    | none => Except.error AddrErr.noAddressInSpace
  | none =>
    let shared := m.addrs.filter (fun a =>
      decide (a.scope = AddrScope.cloudLocal) &&
        allMachines.all (fun other =>
          other.addrs.any (fun b => decide (b.space = a.space))))
    match pickFirst shared with
    | some a => Except.ok a
    | none =>
      match pickFirst (m.addrs.filter
          (fun a => !(decide (a.scope = AddrScope.loopback)))) with
      | some a => Except.ok a
      | none => Except.error AddrErr.noUsableAddress

/-- Errors returned by the remote-entity lookup of the cross-model-relations
state: a not-found relation token, or any other failure. -/
inductive LookupErr where
  | notFound
  | failed (msg : String)
deriving DecidableEq, Repr

/-- One element of `params.RemoteRelationsChanges.Changes`: the relation token
it refers to and whether the relation is still alive (the macaroons travel
with the change and are consumed by the environment functions). -/
structure Change where
  relationToken : Nat
  lifeAlive : Bool
deriving DecidableEq, Repr

/-- The collaborators `PublishRelationChanges` calls, embedded from
`src/unnamed/part_001`: `st.GetRemoteEntity`, `st.OfferConnectionForRelation`,
the authenticator's `CheckRelationMacaroons`, and
`commoncrossmodel.PublishRelationChange`.  Relation tags and offer UUIDs are
represented as naturals. -/
structure CmrEnv where
  getRemoteEntity : Nat → Except LookupErr Nat
  offerConnectionForRelation : Nat → Except String Nat
  checkRelationMacaroons : Nat → Nat → Change → Option String
  publishChange : Nat → Change → Option String

/-- Embedded from `checkMacaroonsForRelation` in `src/unnamed/part_001`: the
`relationToOffer` cache is consulted first; on a miss the offer connection is
fetched (without updating the cache) and the relation macaroons are checked
against the resulting offer UUID. -/
def checkMacaroonsForRelation (env : CmrEnv) (relToOffer : List (Nat × Nat))
    (tag : Nat) (c : Change) : Option String :=
  match relToOffer.find? (fun p => decide (p.1 = tag)) with
  | some p => env.checkRelationMacaroons p.2 tag c
  | none =>
    match env.offerConnectionForRelation tag with
    | Except.error e => some e
    | Except.ok offer => env.checkRelationMacaroons offer tag c

/-- State after the loop of `PublishRelationChanges`: the per-change error
results, the publications actually attempted (tag and change), and the
remaining `relationToOffer` cache. -/
structure CmrLoopOut where
  results : List (Option String)
  published : List (Nat × Change)
  relToOffer : List (Nat × Nat)
deriving Repr

/-- Embedded from the loop body of `PublishRelationChanges`
(`src/unnamed/part_001`, lines 108-130): a not-found relation token is skipped
with no error recorded; other lookup errors, macaroon failures and publish
failures are recorded in the change's result slot; after a successful publish
of a non-alive relation the token is dropped from the `relationToOffer`
cache. -/
def publishLoop (env : CmrEnv) (relToOffer : List (Nat × Nat)) :
    List Change → CmrLoopOut
  | [] => ⟨[], [], relToOffer⟩
  | c :: rest =>
    match env.getRemoteEntity c.relationToken with
    | Except.error LookupErr.notFound =>
      let o := publishLoop env relToOffer rest
      ⟨none :: o.results, o.published, o.relToOffer⟩
    | Except.error (LookupErr.failed e) =>
      let o := publishLoop env relToOffer rest
      ⟨some e :: o.results, o.published, o.relToOffer⟩
    | Except.ok tag =>
      match checkMacaroonsForRelation env relToOffer tag c with
      | some e =>
        let o := publishLoop env relToOffer rest
        ⟨some e :: o.results, o.published, o.relToOffer⟩
      | none =>
        match env.publishChange tag c with
        | some e =>
          let o := publishLoop env relToOffer rest
          ⟨some e :: o.results, (tag, c) :: o.published, o.relToOffer⟩
        | none =>
          let m1 := if c.lifeAlive then relToOffer
            else relToOffer.filter (fun p => !(decide (p.1 = tag)))
          let o := publishLoop env m1 rest
          ⟨none :: o.results, (tag, c) :: o.published, o.relToOffer⟩

/-- Result of the whole `PublishRelationChanges` call: the loop outcome plus
the overall error of the call, which the source always returns as nil. -/
structure CmrCallOut where
  results : List (Option String)
  published : List (Nat × Change)
  relToOffer : List (Nat × Nat)
  callError : Option String
deriving Repr

/-- Embedded from `CrossModelRelationsAPI.PublishRelationChanges`
(`src/unnamed/part_001`, lines 102-132): run the loop over all changes and
return the per-change results with a nil overall error. -/
def publishRelationChanges (env : CmrEnv) (relToOffer : List (Nat × Nat))
    (changes : List Change) : CmrCallOut :=
  let o := publishLoop env relToOffer changes
  ⟨o.results, o.published, o.relToOffer, none⟩

/-- Concrete fixture: a three-voter topology. -/
def wTop3 : Topology := ⟨[⟨1, true⟩, ⟨2, true⟩, ⟨3, true⟩]⟩

/-- Concrete fixture: three healthy vote-desiring machines. -/
def wMachines3 : List Machine := [⟨1, true, true⟩, ⟨2, true, true⟩, ⟨3, true, true⟩]

/-- Concrete fixture: machine 1 unhealthy, the other two healthy. -/
def wMachines3u : List Machine := [⟨1, true, false⟩, ⟨2, true, true⟩, ⟨3, true, true⟩]

/-- Concrete fixture: a bootstrap topology with the single voter 4. -/
def wTop1 : Topology := ⟨[⟨4, true⟩]⟩

/-- Concrete fixture: three healthy vote-desiring machines 4, 5, 6. -/
def wMachinesC9 : List Machine := [⟨4, true, true⟩, ⟨5, true, true⟩, ⟨6, true, true⟩]

/-- Concrete fixture: a machine with one cloud-local address in space 7. -/
def wAddrM : MachineAddresses :=
  ⟨1, [⟨10, 7, AddrScope.cloudLocal⟩, ⟨11, 8, AddrScope.publicScope⟩]⟩

/-- Concrete fixture: a cross-model-relations environment in which relation
token 1 is not found and every other token resolves to itself. -/
def wEnv : CmrEnv :=
  ⟨fun tok => if tok = 1 then Except.error LookupErr.notFound else Except.ok tok,
    fun _ => Except.ok 0, fun _ _ _ => none, fun _ _ => none⟩

/-- Concrete fixture: two changes, the first with the not-found token 1. -/
def wChanges : List Change := [⟨1, true⟩, ⟨2, true⟩]

/-- Filtering with a stronger predicate yields at most as many elements. -/
theorem length_filter_mono {α : Type} (l : List α) (p q : α → Bool)
    (h : ∀ a ∈ l, p a = true → q a = true) :
    (l.filter p).length ≤ (l.filter q).length := by
  induction l with
  | nil => simp
  | cons x xs ih =>
    have ih' := ih (fun a ha hp => h a (List.mem_cons_of_mem _ ha) hp)
    by_cases hp : p x = true
    · have hq := h x (List.mem_cons_self x xs) hp
      simp only [List.filter_cons, hp, hq, if_true]
      exact Nat.succ_le_succ ih'
    · simp only [List.filter_cons, Bool.not_eq_true] at *
      rw [if_neg (by simp [hp])]
      by_cases hq : q x = true
      · rw [if_pos (by simp [hq])]
        exact Nat.le_succ_of_le ih'
      · rw [if_neg (by simp [hq])]
        exact ih'

/-- A filtered count splits along any second predicate. -/
theorem length_filter_and_split {α : Type} (l : List α) (p q : α → Bool) :
    (l.filter p).length =
      (l.filter (fun a => p a && q a)).length +
        (l.filter (fun a => p a && !(q a))).length := by
  induction l with
  | nil => rfl
  | cons x xs ih =>
    by_cases hp : p x = true
    · by_cases hq : q x = true
      · simp only [List.filter_cons, hp, hq]
        simp [ih]
        omega
      · have hq' : q x = false := by revert hq; cases q x <;> simp
        simp only [List.filter_cons, hp, hq']
        simp [ih]
        omega
    · have hp' : p x = false := by revert hp; cases p x <;> simp
      simp only [List.filter_cons, hp']
      simp [ih]

/-- A duplicate-free list included in another is at most as long. -/
theorem nodup_subset_length {α : Type} {l D : List α}
    (hnd : l.Nodup) (h : ∀ a ∈ l, a ∈ D) : l.length ≤ D.length :=
  (List.subperm_of_subset hnd h).length_le

/-- Healthy demotions respect the quorum-safety cap. -/
theorem healthyDemotions_length_le (t : Topology) (machines : List Machine) :
    (healthyDemotions t machines).length ≤ demotionCap t machines := by
  unfold healthyDemotions
  rw [List.length_take]
  exact min_le_left _ _

/-- Every voter demoted as a healthy demotion is healthy. -/
theorem mem_healthyDemotions_healthy {t : Topology} {machines : List Machine}
    {v : Nat} (h : v ∈ healthyDemotions t machines) :
    isHealthy machines v = true := by
  unfold healthyDemotions at h
  have hmem := (List.take_sublist _ _).subset h
  simp only [List.mem_filter, Bool.and_eq_true] at hmem
  exact hmem.2.1

/-- An unhealthy voter with no promoted healthy replacement is never among
the demoted voters. -/
theorem not_demoted_unhealthy {t : Topology} {machines : List Machine}
    {v : Nat} (hunh : isHealthy machines v = false)
    (hnorep : replacementPromoted t machines v = false)
    (h : v ∈ demotedVoters t machines) : False := by
  unfold demotedVoters at h
  rcases List.mem_append.1 h with h | h
  · have := mem_healthyDemotions_healthy h
    rw [hunh] at this
    cases this
  · unfold unhealthyDemotions at h
    simp only [List.mem_filter, Bool.and_eq_true] at h
    rw [hnorep] at h
    cases h.2.2

/-- A current voter that is not demoted is kept. -/
theorem mem_kept_of_not_demoted {t : Topology} {machines : List Machine}
    {v : Nat} (hv : v ∈ currentVoterIds t)
    (hd : v ∉ demotedVoters t machines) : v ∈ keptVoters t machines := by
  unfold keptVoters
  simp [List.mem_filter, hv, hd]

/-- `dropFirstHealthy` never drops an unhealthy element. -/
theorem mem_dropFirstHealthy_of_unhealthy {machines : List Machine} {v : Nat}
    (hv : isHealthy machines v = false) :
    ∀ {l : List Nat}, v ∈ l → v ∈ dropFirstHealthy machines l := by
  intro l
  induction l with
  | nil => intro h; cases h
  | cons x xs ih =>
    intro h
    unfold dropFirstHealthy
    by_cases hx : isHealthy machines x = true
    · rw [if_pos hx]
      rcases List.mem_cons.1 h with rfl | h
      · rw [hx] at hv; cases hv
      · exact h
    · rw [if_neg hx]
      rcases List.mem_cons.1 h with rfl | h
      · exact List.mem_cons_self _ _
      · exact List.mem_cons_of_mem _ (ih h)

/-- `dropLastHealthy` never drops an unhealthy element. -/
theorem mem_dropLastHealthy_of_unhealthy {machines : List Machine}
    {l : List Nat} {v : Nat} (hv : isHealthy machines v = false)
    (h : v ∈ l) : v ∈ dropLastHealthy machines l := by
  unfold dropLastHealthy
  rw [List.mem_reverse]
  exact mem_dropFirstHealthy_of_unhealthy hv (List.mem_reverse.2 h)

/-- When no voter is demoted, the kept voters are the current voters. -/
theorem kept_eq_cur_of_no_demotions {t : Topology} {machines : List Machine}
    (hd : demotedVoters t machines = []) :
    keptVoters t machines = currentVoterIds t := by
  unfold keptVoters
  rw [hd]
  simp

/-- With an odd current voting set the parity-repair fallback branch (even
count, not growing, nothing demoted) is unreachable. -/
theorem no_fallback (t : Topology) (machines : List Machine)
    (hodd : (currentVoterIds t).length % 2 = 1)
    (hd : demotedVoters t machines = [])
    (h1 : ¬((keptVoters t machines ++ newCandidates t machines).length % 2 = 1))
    (h2 : ¬((currentVoterIds t).length <
        (keptVoters t machines ++ newCandidates t machines).length)) : False := by
  rw [List.length_append, kept_eq_cur_of_no_demotions hd] at h1 h2
  omega

/-- An unhealthy current voter with no promoted healthy replacement stays in
the target voting set. -/
theorem unhealthy_voter_in_target (t : Topology) (machines : List Machine)
    (v : Nat) (hv : v ∈ currentVoterIds t)
    (hunh : isHealthy machines v = false)
    (hnorep : replacementPromoted t machines v = false) :
    v ∈ targetVoters t machines := by
  have hkept : v ∈ keptVoters t machines :=
    mem_kept_of_not_demoted hv (fun h => not_demoted_unhealthy hunh hnorep h)
  unfold targetVoters fixParity
  by_cases h1 : (keptVoters t machines ++ newCandidates t machines).length % 2 = 1
  · rw [if_pos h1]
    exact List.mem_append_left _ hkept
  · rw [if_neg h1]
    by_cases h2 : (currentVoterIds t).length <
        (keptVoters t machines ++ newCandidates t machines).length
    · rw [if_pos h2]
      exact List.mem_append_left _ hkept
    · rw [if_neg h2]
      cases hd : demotedVoters t machines with
      | cons d ds =>
        show v ∈ keptVoters t machines ++ newCandidates t machines ++ [d]
        exact List.mem_append_left _ (List.mem_append_left _ hkept)
      | nil =>
        show v ∈ dropLastHealthy machines
          (keptVoters t machines ++ newCandidates t machines)
        exact mem_dropLastHealthy_of_unhealthy hunh
          (List.mem_append_left _ hkept)

/-- With an odd current voting set, every kept voter is a target voter. -/
theorem kept_subset_target (t : Topology) (machines : List Machine)
    (hodd : (currentVoterIds t).length % 2 = 1) :
    ∀ v ∈ keptVoters t machines, v ∈ targetVoters t machines := by
  intro v hv
  unfold targetVoters fixParity
  by_cases h1 : (keptVoters t machines ++ newCandidates t machines).length % 2 = 1
  · rw [if_pos h1]
    exact List.mem_append_left _ hv
  · rw [if_neg h1]
    by_cases h2 : (currentVoterIds t).length <
        (keptVoters t machines ++ newCandidates t machines).length
    · rw [if_pos h2]
      exact List.mem_append_left _ hv
    · rw [if_neg h2]
      cases hd : demotedVoters t machines with
      | cons d ds =>
        show v ∈ keptVoters t machines ++ newCandidates t machines ++ [d]
        exact List.mem_append_left _ (List.mem_append_left _ hv)
      | nil => exact (no_fallback t machines hodd hd h1 h2).elim

/-- With an odd current voting set the target voting set is odd. -/
theorem targetVoters_length_odd (t : Topology) (machines : List Machine)
    (hodd : (currentVoterIds t).length % 2 = 1) :
    (targetVoters t machines).length % 2 = 1 := by
  unfold targetVoters fixParity
  by_cases h1 : (keptVoters t machines ++ newCandidates t machines).length % 2 = 1
  · rw [if_pos h1]
    exact h1
  · rw [if_neg h1]
    have hk : (keptVoters t machines).length ≤ (currentVoterIds t).length := by
      unfold keptVoters
      exact List.length_filter_le _ _
    by_cases h2 : (currentVoterIds t).length <
        (keptVoters t machines ++ newCandidates t machines).length
    · rw [if_pos h2]
      simp only [List.length_append] at h1 h2
      simp only [List.length_append, List.length_dropLast]
      omega
    · rw [if_neg h2]
      cases hd : demotedVoters t machines with
      | cons d ds =>
        show (keptVoters t machines ++ newCandidates t machines ++ [d]).length
          % 2 = 1
        simp only [List.length_append, List.length_singleton] at h1 ⊢
        omega
      | nil => exact (no_fallback t machines hodd hd h1 h2).elim

/-- Filtering a mapped list counts the elements whose image satisfies the
predicate. -/
theorem length_filter_map_eq {α β : Type} (f : α → β) (p : β → Bool)
    (l : List α) :
    ((l.map f).filter p).length = (l.filter (fun a => p (f a))).length := by
  induction l with
  | nil => rfl
  | cons x xs ih =>
    simp only [List.map_cons, List.filter_cons]
    by_cases h : p (f x) = true
    · rw [if_pos h, if_pos h]
      simp [ih]
    · rw [if_neg h, if_neg h]
      exact ih

/-- The voting members of the planned topology are exactly the target
voters. -/
theorem votingCount_plan (t : Topology) (machines : List Machine) :
    votingCount (plan t machines).next = (targetVoters t machines).length := by
  unfold votingCount plan
  rw [length_filter_map_eq]
  unfold targetMembers
  rw [List.filter_append]
  have hleft : (targetVoters t machines).filter
      (fun i => decide (i ∈ targetVoters t machines)) = targetVoters t machines :=
    List.filter_eq_self.2 (fun a ha => by simp [ha])
  have hright : ((((machines.filter (fun m => m.wantsVote)).map
      (fun m => m.id)).filter
        (fun i => !(decide (i ∈ targetVoters t machines)))).filter
      (fun i => decide (i ∈ targetVoters t machines))) = [] := by
    rw [List.filter_filter]
    exact List.filter_eq_nil.2 (fun a _ => by
      by_cases h : a ∈ targetVoters t machines <;> simp [h])
  rw [hleft, hright, List.length_append]
  rfl

/-- C2: with the system invariant that the applied (current) configuration
has an odd voting count, every topology `plan` returns that has at least
three members has an odd number of voting members. -/
theorem plan_oddVoters (t : Topology) (machines : List Machine)
    (hodd : (currentVoterIds t).length % 2 = 1)
    (h3 : 3 ≤ (plan t machines).next.members.length) :
    votingCount (plan t machines).next % 2 = 1 := by
  rw [votingCount_plan]
  exact targetVoters_length_odd t machines hodd

/-- Witness for C2 at a concrete three-voter topology. -/
theorem plan_oddVoters_witness :
    votingCount (plan wTop3 wMachines3).next % 2 = 1 :=
  plan_oddVoters wTop3 wMachines3 (by decide) (by decide)

/-- C4: an unhealthy current voter for which no healthy replacement has been
promoted to voting receives no vote-revocation action and keeps its vote in
the planned topology. -/
theorem plan_keeps_unhealthy_voter (t : Topology) (machines : List Machine)
    (v : Nat) (hv : v ∈ currentVoterIds t)
    (hunh : isHealthy machines v = false)
    (hnorep : replacementPromoted t machines v = false) :
    Action.revokeVote v ∉ (plan t machines).actions ∧
      (⟨v, true⟩ : Member) ∈ (plan t machines).next.members := by
  have htar : v ∈ targetVoters t machines :=
    unhealthy_voter_in_target t machines v hv hunh hnorep
  constructor
  · intro hmem
    simp only [plan, planActions, List.mem_append, List.mem_map] at hmem
    rcases hmem with ((⟨u, hu, hequ⟩ | ⟨u, hu, hequ⟩) | ⟨u, hu, hequ⟩) |
      ⟨u, hu, hequ⟩
    · injection hequ with h
      subst h
      have := (List.mem_filter.1 hu).2
      simp only [Bool.not_eq_true'] at this
      rw [decide_eq_true htar] at this
      cases this
    · cases hequ
    · cases hequ
    · cases hequ
  · have hmem : (⟨v, decide (v ∈ targetVoters t machines)⟩ : Member) ∈
        (targetMembers t machines).map
          (fun i => (⟨i, decide (i ∈ targetVoters t machines)⟩ : Member)) :=
      List.mem_map_of_mem _ (List.mem_append_left _ htar)
    rw [decide_eq_true htar] at hmem
    exact hmem

/-- With an odd current voting set no replacement counts as promoted, so no
unhealthy voter is demoted. -/
theorem unhealthyDemotions_nil_of_odd (t : Topology) (machines : List Machine)
    (hodd : (currentVoterIds t).length % 2 = 1) :
    unhealthyDemotions t machines = [] := by
  unfold unhealthyDemotions
  refine List.filter_eq_nil.2 ?_
  intro v _
  have hnp : replacementPromoted t machines v = false := by
    unfold replacementPromoted
    have h0 : ¬((currentVoterIds t).length % 2 = 0) := by omega
    simp [h0]
  simp [hnp]

/-- C1: when the current configuration is duplicate-free with an odd voting
count and a majority of its voters is healthy, the healthy voters shared by
the current and the planned configuration number at least the majority
(the ceiling of `(voters_before+1)/2`) of the current voting set, so no
single planner transition drops the overlap below quorum. -/
theorem plan_quorum_overlap (t : Topology) (machines : List Machine)
    (hnd : (currentVoterIds t).Nodup)
    (hodd : (currentVoterIds t).length % 2 = 1)
    (hmaj : majoritySize (currentVoterIds t).length ≤ voterHc t machines) :
    majoritySize (currentVoterIds t).length ≤
      ((currentVoterIds t).filter (fun v =>
        isHealthy machines v &&
          decide (v ∈ targetVoters t machines))).length := by
  have hDlen : (demotedVoters t machines).length ≤ demotionCap t machines := by
    unfold demotedVoters
    rw [unhealthyDemotions_nil_of_odd t machines hodd, List.append_nil]
    exact healthyDemotions_length_le t machines
  have hstep1 : ((currentVoterIds t).filter (fun v =>
      isHealthy machines v &&
        !(decide (v ∈ demotedVoters t machines)))).length ≤
      ((currentVoterIds t).filter (fun v =>
      isHealthy machines v &&
        decide (v ∈ targetVoters t machines))).length := by
    apply length_filter_mono
    intro a ha hpa
    simp only [Bool.and_eq_true, Bool.not_eq_true', decide_eq_false_iff_not]
      at hpa
    have hk : a ∈ keptVoters t machines :=
      mem_kept_of_not_demoted ha hpa.2
    have ht : a ∈ targetVoters t machines :=
      kept_subset_target t machines hodd a hk
    simp [hpa.1, ht]
  have hsplit := length_filter_and_split (currentVoterIds t)
    (isHealthy machines) (fun v => decide (v ∈ demotedVoters t machines))
  have hinD : ((currentVoterIds t).filter (fun v =>
      isHealthy machines v &&
        decide (v ∈ demotedVoters t machines))).length ≤
      (demotedVoters t machines).length := by
    apply nodup_subset_length (List.Nodup.filter _ hnd)
    intro a ha
    have hmem := (List.mem_filter.1 ha).2
    simp only [Bool.and_eq_true, decide_eq_true_eq] at hmem
    exact hmem.2
  unfold demotionCap at hDlen
  unfold voterHc at hmaj hDlen
  omega

/-- Witness for C1: a three-voter group with one unhealthy machine — the
majority bound 2 holds for the planned transition. -/
theorem plan_quorum_overlap_witness :
    majoritySize (currentVoterIds wTop3).length ≤
      ((currentVoterIds wTop3).filter (fun v =>
        isHealthy wMachines3u v &&
          decide (v ∈ targetVoters wTop3 wMachines3u))).length :=
  plan_quorum_overlap wTop3 wMachines3u (by decide) (by decide) (by decide)

/-- Witness for C4: in a three-voter group whose machine 1 turns unhealthy,
the planner emits no revocation for it and it keeps its vote. -/
theorem plan_keeps_unhealthy_voter_witness :
    Action.revokeVote 1 ∉ (plan wTop3 wMachines3u).actions ∧
      (⟨1, true⟩ : Member) ∈ (plan wTop3 wMachines3u).next.members :=
  plan_keeps_unhealthy_voter wTop3 wMachines3u 1 (by decide) (by decide)
    (by decide)

/-- Filtering a list by a predicate and by its negation partitions it. -/
theorem length_filter_pos_neg {α : Type} (l : List α) (q : α → Bool) :
    (l.filter q).length + (l.filter (fun a => !(q a))).length = l.length := by
  induction l with
  | nil => rfl
  | cons x xs ih =>
    by_cases h : q x = true
    · simp only [List.filter_cons, h]
      simp
      omega
    · have h' : q x = false := by revert h; cases q x <;> simp
      simp only [List.filter_cons, h']
      simp
      omega

/-- Keeping the elements of a duplicate-free list that lie in a duplicate-free
subset counts that subset exactly. -/
theorem filter_mem_length {l cur : List Nat} (hl : l.Nodup) (hcur : cur.Nodup)
    (hsub : ∀ v ∈ cur, v ∈ l) :
    (l.filter (fun i => decide (i ∈ cur))).length = cur.length := by
  apply le_antisymm
  · apply nodup_subset_length (List.Nodup.filter _ hl)
    intro a ha
    have := (List.mem_filter.1 ha).2
    simpa using this
  · apply nodup_subset_length hcur
    intro a ha
    exact List.mem_filter.2 ⟨hsub a ha, by simpa using ha⟩

/-- Extending a voter subset by the remaining ids reaches the full count. -/
theorem combined_length {l cur : List Nat} (hl : l.Nodup) (hcur : cur.Nodup)
    (hsub : ∀ v ∈ cur, v ∈ l) :
    (cur ++ l.filter (fun i => !(decide (i ∈ cur)))).length = l.length := by
  rw [List.length_append]
  have h1 := length_filter_pos_neg l (fun i => decide (i ∈ cur))
  have h2 := filter_mem_length hl hcur hsub
  omega

/-- Every id appears in the voter subset extended by the remaining ids. -/
theorem combined_covers {l cur : List Nat} :
    ∀ i ∈ l, i ∈ cur ++ l.filter (fun j => !(decide (j ∈ cur))) := by
  intro i hi
  by_cases h : i ∈ cur
  · exact List.mem_append_left _ h
  · exact List.mem_append_right _ (List.mem_filter.2 ⟨hi, by simpa using h⟩)

/-- The extended voter list stays inside the id list. -/
theorem combined_subset {l cur : List Nat} (hsub : ∀ v ∈ cur, v ∈ l) :
    ∀ i ∈ cur ++ l.filter (fun j => !(decide (j ∈ cur))), i ∈ l := by
  intro i hi
  rcases List.mem_append.1 hi with h | h
  · exact hsub i h
  · exact (List.mem_filter.1 h).1

/-- The extended voter list is duplicate-free. -/
theorem combined_nodup {l cur : List Nat} (hl : l.Nodup) (hcur : cur.Nodup) :
    (cur ++ l.filter (fun j => !(decide (j ∈ cur)))).Nodup := by
  apply List.Nodup.append hcur (List.Nodup.filter _ hl)
  intro a ha hb
  have := (List.mem_filter.1 hb).2
  simp at this
  exact this ha

/-- Any machine id looks up as healthy and vote-desiring when every machine
in the input is healthy and vote-desiring. -/
theorem healthy_of_mem_ids {machines : List Machine}
    (hm : ∀ x ∈ machines, x.healthy = true ∧ x.wantsVote = true)
    {v : Nat} (hv : v ∈ machines.map (fun m => m.id)) :
    isHealthy machines v = true ∧ wantsVote machines v = true := by
  rcases List.mem_map.1 hv with ⟨m, hmmem, rfl⟩
  have hfind : ∃ m', findMachine machines m.id = some m' ∧ m' ∈ machines := by
    unfold findMachine
    cases hf : machines.find? (fun x => decide (x.id = m.id)) with
    | none =>
      exfalso
      have := List.find?_eq_none.1 hf m hmmem
      simp at this
    | some m' => exact ⟨m', rfl, List.mem_of_find?_eq_some hf⟩
  rcases hfind with ⟨m', hf, hmem'⟩
  have hm' := hm m' hmem'
  constructor <;> simp [isHealthy, wantsVote, hf, hm'.1, hm'.2]

/-- Current voters come from the controller machine set. -/
theorem cur_subset_ids (t : Topology) (machines : List Machine)
    (ht : ∀ mem ∈ t.members, mem.machineId ∈ machines.map (fun m => m.id)) :
    ∀ v ∈ currentVoterIds t, v ∈ machines.map (fun m => m.id) := by
  intro v hv
  unfold currentVoterIds at hv
  rcases List.mem_map.1 hv with ⟨mem, hmem, rfl⟩
  exact ht mem (List.mem_of_mem_filter hmem)

/-- A duplicate-free member list gives duplicate-free voter ids. -/
theorem cur_nodup (t : Topology) (htnd : (memberIds t).Nodup) :
    (currentVoterIds t).Nodup := by
  have hs : List.Sublist (currentVoterIds t) (memberIds t) :=
    List.Sublist.map _ (List.filter_sublist _)
  exact List.Nodup.sublist hs htnd

/-- With an all-healthy all-wanting machine set whose ids cover the current
members, no voter is demoted. -/
theorem demoted_nil_of_all_wanting (t : Topology) (machines : List Machine)
    (hm : ∀ x ∈ machines, x.healthy = true ∧ x.wantsVote = true)
    (ht : ∀ mem ∈ t.members, mem.machineId ∈ machines.map (fun m => m.id)) :
    demotedVoters t machines = [] := by
  unfold demotedVoters healthyDemotions unhealthyDemotions
  have h1 : (currentVoterIds t).filter
      (fun v => isHealthy machines v && !(wantsVote machines v)) = [] :=
    List.filter_eq_nil.2 (fun v hv => by
      have hh := healthy_of_mem_ids hm (cur_subset_ids t machines ht v hv)
      simp [hh.1, hh.2])
  have h2 : (currentVoterIds t).filter
      (fun v => !(isHealthy machines v) && replacementPromoted t machines v)
      = [] :=
    List.filter_eq_nil.2 (fun v hv => by
      have hh := healthy_of_mem_ids hm (cur_subset_ids t machines ht v hv)
      simp [hh.1])
  rw [h1, h2]
  simp

/-- With an all-healthy all-wanting machine set the new candidates are
exactly the non-voting machine ids. -/
theorem newCandidates_eq (t : Topology) (machines : List Machine)
    (hm : ∀ x ∈ machines, x.healthy = true ∧ x.wantsVote = true)
    (hd : demotedVoters t machines = []) :
    newCandidates t machines = (machines.map (fun m => m.id)).filter
      (fun i => !(decide (i ∈ currentVoterIds t))) := by
  unfold newCandidates
  rw [kept_eq_cur_of_no_demotions hd]
  congr 1
  unfold naturalCandidates
  congr 1
  apply List.filter_eq_self.2
  intro m hmm
  simp [(hm m hmm).1, (hm m hmm).2]

/-- Under the convergence hypotheses the target voting set is the current
voters extended by all remaining machine ids. -/
theorem target_eq_combined (t : Topology) (machines : List Machine)
    (hm : ∀ x ∈ machines, x.healthy = true ∧ x.wantsVote = true)
    (hids : (machines.map (fun m => m.id)).Nodup)
    (hodd : machines.length % 2 = 1)
    (ht : ∀ mem ∈ t.members, mem.machineId ∈ machines.map (fun m => m.id))
    (htnd : (memberIds t).Nodup) :
    targetVoters t machines =
      currentVoterIds t ++ (machines.map (fun m => m.id)).filter
        (fun i => !(decide (i ∈ currentVoterIds t))) := by
  have hd := demoted_nil_of_all_wanting t machines hm ht
  have hlen : (currentVoterIds t ++ (machines.map (fun m => m.id)).filter
      (fun i => !(decide (i ∈ currentVoterIds t)))).length =
      (machines.map (fun m => m.id)).length :=
    combined_length hids (cur_nodup t htnd) (cur_subset_ids t machines ht)
  unfold targetVoters
  rw [kept_eq_cur_of_no_demotions hd, newCandidates_eq t machines hm hd]
  unfold fixParity
  rw [if_pos (by rw [hlen, List.length_map]; exact hodd)]

/-- Under the convergence hypotheses the target voting set covers every
machine id. -/
theorem ids_subset_target (t : Topology) (machines : List Machine)
    (hm : ∀ x ∈ machines, x.healthy = true ∧ x.wantsVote = true)
    (hids : (machines.map (fun m => m.id)).Nodup)
    (hodd : machines.length % 2 = 1)
    (ht : ∀ mem ∈ t.members, mem.machineId ∈ machines.map (fun m => m.id))
    (htnd : (memberIds t).Nodup) :
    ∀ i ∈ machines.map (fun m => m.id), i ∈ targetVoters t machines := by
  rw [target_eq_combined t machines hm hids hodd ht htnd]
  exact combined_covers

/-- Under the convergence hypotheses the planned member set collapses to the
target voting set. -/
theorem targetMembers_eq_target (t : Topology) (machines : List Machine)
    (hm : ∀ x ∈ machines, x.healthy = true ∧ x.wantsVote = true)
    (hids : (machines.map (fun m => m.id)).Nodup)
    (hodd : machines.length % 2 = 1)
    (ht : ∀ mem ∈ t.members, mem.machineId ∈ machines.map (fun m => m.id))
    (htnd : (memberIds t).Nodup) :
    targetMembers t machines = targetVoters t machines := by
  unfold targetMembers
  have hwanting : (machines.filter (fun m => m.wantsVote)).map
      (fun m => m.id) = machines.map (fun m => m.id) := by
    congr 1
    exact List.filter_eq_self.2 (fun m hmm => by simp [(hm m hmm).2])
  rw [hwanting]
  have hnil : (machines.map (fun m => m.id)).filter
      (fun i => !(decide (i ∈ targetVoters t machines))) = [] :=
    List.filter_eq_nil.2 (fun a ha => by
      simp [ids_subset_target t machines hm hids hodd ht htnd a ha])
  rw [hnil, List.append_nil]

/-- Under the convergence hypotheses every planned member holds a vote. -/
theorem next_members_eq (t : Topology) (machines : List Machine)
    (hm : ∀ x ∈ machines, x.healthy = true ∧ x.wantsVote = true)
    (hids : (machines.map (fun m => m.id)).Nodup)
    (hodd : machines.length % 2 = 1)
    (ht : ∀ mem ∈ t.members, mem.machineId ∈ machines.map (fun m => m.id))
    (htnd : (memberIds t).Nodup) :
    (plan t machines).next.members =
      (targetVoters t machines).map (fun i => (⟨i, true⟩ : Member)) := by
  show (targetMembers t machines).map _ = _
  rw [targetMembers_eq_target t machines hm hids hodd ht htnd]
  apply List.map_congr_left
  intro i hi
  simp [decide_eq_true hi]

/-- Under the convergence hypotheses the planned topology's voters are the
target voters. -/
theorem next_cur_eq (t : Topology) (machines : List Machine)
    (hm : ∀ x ∈ machines, x.healthy = true ∧ x.wantsVote = true)
    (hids : (machines.map (fun m => m.id)).Nodup)
    (hodd : machines.length % 2 = 1)
    (ht : ∀ mem ∈ t.members, mem.machineId ∈ machines.map (fun m => m.id))
    (htnd : (memberIds t).Nodup) :
    currentVoterIds (plan t machines).next = targetVoters t machines := by
  unfold currentVoterIds
  rw [next_members_eq t machines hm hids hodd ht htnd]
  have h1 : ((targetVoters t machines).map
      (fun i => (⟨i, true⟩ : Member))).filter (fun m => m.voting) =
      (targetVoters t machines).map (fun i => (⟨i, true⟩ : Member)) :=
    List.filter_eq_self.2 (fun a ha => by
      rcases List.mem_map.1 ha with ⟨i, _, rfl⟩
      rfl)
  rw [h1, List.map_map]
  exact List.map_id _

/-- Under the convergence hypotheses the planned topology's member ids are
the target voters. -/
theorem next_memberIds_eq (t : Topology) (machines : List Machine)
    (hm : ∀ x ∈ machines, x.healthy = true ∧ x.wantsVote = true)
    (hids : (machines.map (fun m => m.id)).Nodup)
    (hodd : machines.length % 2 = 1)
    (ht : ∀ mem ∈ t.members, mem.machineId ∈ machines.map (fun m => m.id))
    (htnd : (memberIds t).Nodup) :
    memberIds (plan t machines).next = targetVoters t machines := by
  unfold memberIds
  rw [next_members_eq t machines hm hids hodd ht htnd, List.map_map]
  exact List.map_id _

/-- C9: with a fixed, healthy, unchanging machine set of odd size N (all
desiring votes) whose ids cover the duplicate-free current member list, a
single planning cycle already yields a topology with exactly N voting
members, and planning again from that topology returns it unchanged with an
empty action list — a no-op fixed point, so convergence is reached within one
cycle and all later cycles are no-ops. -/
theorem plan_converges (t : Topology) (machines : List Machine)
    (hm : ∀ x ∈ machines, x.healthy = true ∧ x.wantsVote = true)
    (hids : (machines.map (fun m => m.id)).Nodup)
    (hodd : machines.length % 2 = 1)
    (ht : ∀ mem ∈ t.members, mem.machineId ∈ machines.map (fun m => m.id))
    (htnd : (memberIds t).Nodup) :
    votingCount (plan t machines).next = machines.length ∧
      plan (plan t machines).next machines = ⟨(plan t machines).next, []⟩ := by
  have htlen : (targetVoters t machines).length = machines.length := by
    rw [target_eq_combined t machines hm hids hodd ht htnd,
      combined_length hids (cur_nodup t htnd) (cur_subset_ids t machines ht),
      List.length_map]
  have htsub : ∀ i ∈ targetVoters t machines, i ∈ machines.map (fun m => m.id) := by
    rw [target_eq_combined t machines hm hids hodd ht htnd]
    exact combined_subset (cur_subset_ids t machines ht)
  have htarnd : (targetVoters t machines).Nodup := by
    rw [target_eq_combined t machines hm hids hodd ht htnd]
    exact combined_nodup hids (cur_nodup t htnd)
  have ht' : ∀ mem ∈ (plan t machines).next.members,
      mem.machineId ∈ machines.map (fun m => m.id) := by
    rw [next_members_eq t machines hm hids hodd ht htnd]
    intro mem hmem
    rcases List.mem_map.1 hmem with ⟨i, hi, rfl⟩
    exact htsub i hi
  have htnd' : (memberIds (plan t machines).next).Nodup := by
    rw [next_memberIds_eq t machines hm hids hodd ht htnd]
    exact htarnd
  have hidnil : (machines.map (fun m => m.id)).filter
      (fun i => !(decide (i ∈ targetVoters t machines))) = [] :=
    List.filter_eq_nil.2 (fun a ha => by
      simp [ids_subset_target t machines hm hids hodd ht htnd a ha])
  have target_T1 : targetVoters (plan t machines).next machines =
      targetVoters t machines := by
    have hcomb := target_eq_combined (plan t machines).next machines hm hids
      hodd ht' htnd'
    rw [next_cur_eq t machines hm hids hodd ht htnd] at hcomb
    rw [hcomb, hidnil, List.append_nil]
  have members_T1 : targetMembers (plan t machines).next machines =
      targetVoters t machines := by
    rw [targetMembers_eq_target (plan t machines).next machines hm hids hodd
      ht' htnd', target_T1]
  have hnext : (plan (plan t machines).next machines).next =
      (plan t machines).next := by
    show (⟨(targetMembers (plan t machines).next machines).map
      (fun i => ⟨i, decide (i ∈ targetVoters (plan t machines).next machines)⟩)⟩
        : Topology) = (plan t machines).next
    have hmembers : (targetMembers (plan t machines).next machines).map
        (fun i => (⟨i, decide (i ∈ targetVoters (plan t machines).next machines)⟩
          : Member)) = (plan t machines).next.members := by
      rw [members_T1, next_members_eq t machines hm hids hodd ht htnd]
      apply List.map_congr_left
      intro i hi
      have hiT1 : i ∈ targetVoters (plan t machines).next machines := by
        rw [target_T1]
        exact hi
      simp [decide_eq_true hiT1]
    rw [hmembers]
  have hact : (plan (plan t machines).next machines).actions = [] := by
    show planActions (plan t machines).next machines = []
    unfold planActions
    rw [next_cur_eq t machines hm hids hodd ht htnd,
      next_memberIds_eq t machines hm hids hodd ht htnd, target_T1, members_T1]
    have hnil2 : (targetVoters t machines).filter
        (fun v => !(decide (v ∈ targetVoters t machines))) = [] :=
      List.filter_eq_nil.2 (fun a ha => by simp [ha])
    rw [hnil2]
    simp
  refine ⟨by rw [votingCount_plan]; exact htlen, ?_⟩
  calc plan (plan t machines).next machines
      = ⟨(plan (plan t machines).next machines).next,
          (plan (plan t machines).next machines).actions⟩ := rfl
    _ = ⟨(plan t machines).next, []⟩ := by rw [hnext, hact]

/-- Witness for C9 at a concrete bootstrap topology and three machines. -/
theorem plan_converges_witness :
    votingCount (plan wTop1 wMachinesC9).next = wMachinesC9.length ∧
      plan (plan wTop1 wMachinesC9).next wMachinesC9 =
        ⟨(plan wTop1 wMachinesC9).next, []⟩ :=
  plan_converges wTop1 wMachinesC9 (by decide) (by decide) (by decide)
    (by decide) (by decide)

/-- The loop of `PublishRelationChanges` yields one result slot per input
change. -/
theorem publishLoop_length (env : CmrEnv) (chs : List Change) :
    ∀ m0 : List (Nat × Nat),
      (publishLoop env m0 chs).results.length = chs.length := by
  induction chs with
  | nil => intro m0; rfl
  | cons c rest ih =>
    intro m0
    cases hg : env.getRemoteEntity c.relationToken with
    | error e =>
      cases e with
      | notFound => simp [publishLoop, hg, ih m0]
      | failed msg => simp [publishLoop, hg, ih m0]
    | ok tag =>
      cases hmc : checkMacaroonsForRelation env m0 tag c with
      | some e => simp [publishLoop, hg, hmc, ih m0]
      | none =>
        cases hp : env.publishChange tag c with
        | some e => simp [publishLoop, hg, hmc, hp, ih m0]
        | none =>
          by_cases hl : c.lifeAlive = true
          · simp [publishLoop, hg, hmc, hp, hl, ih m0]
          · have hl' : c.lifeAlive = false := by
              revert hl; cases c.lifeAlive <;> simp
            simp [publishLoop, hg, hmc, hp, hl',
              ih (m0.filter (fun p => !(decide (p.1 = tag))))]

/-- A change whose relation token is not found gets the error-free result
`none` in its own slot. -/
theorem publishLoop_notFound (env : CmrEnv) (chs : List Change) :
    ∀ (m0 : List (Nat × Nat)) (i : Nat) (c : Change), chs.get? i = some c →
      env.getRemoteEntity c.relationToken = Except.error LookupErr.notFound →
      (publishLoop env m0 chs).results.get? i = some none := by
  induction chs with
  | nil =>
    intro m0 i c h _
    simp at h
  | cons c0 rest ih =>
    intro m0 i c hget hnf
    cases i with
    | zero =>
      rw [List.get?_cons_zero] at hget
      injection hget with h
      subst h
      simp [publishLoop, hnf]
    | succ j =>
      rw [List.get?_cons_succ] at hget
      cases hg : env.getRemoteEntity c0.relationToken with
      | error e =>
        cases e with
        | notFound =>
          simp only [publishLoop, hg, List.get?_cons_succ]
          exact ih m0 j c hget hnf
        | failed msg =>
          simp only [publishLoop, hg, List.get?_cons_succ]
          exact ih m0 j c hget hnf
      | ok tag =>
        cases hmc : checkMacaroonsForRelation env m0 tag c0 with
        | some e =>
          simp only [publishLoop, hg, hmc, List.get?_cons_succ]
          exact ih m0 j c hget hnf
        | none =>
          cases hp : env.publishChange tag c0 with
          | some e =>
            simp only [publishLoop, hg, hmc, hp, List.get?_cons_succ]
            exact ih m0 j c hget hnf
          | none =>
            by_cases hl : c0.lifeAlive = true
            · simp only [publishLoop, hg, hmc, hp, hl, if_pos,
                List.get?_cons_succ]
              exact ih m0 j c hget hnf
            · have hl' : c0.lifeAlive = false := by
                revert hl; cases c0.lifeAlive <;> simp
              simp only [publishLoop, hg, hmc, hp, hl', Bool.false_eq_true,
                if_neg, List.get?_cons_succ]
              exact ih (m0.filter (fun p => !(decide (p.1 = tag)))) j c hget hnf

/-- Every publication the loop attempts is for a change whose relation token
was found. -/
theorem publishLoop_published (env : CmrEnv) (chs : List Change) :
    ∀ (m0 : List (Nat × Nat)) (p : Nat × Change),
      p ∈ (publishLoop env m0 chs).published →
      env.getRemoteEntity p.2.relationToken = Except.ok p.1 := by
  induction chs with
  | nil =>
    intro m0 p h
    simp [publishLoop] at h
  | cons c0 rest ih =>
    intro m0 p hp
    cases hg : env.getRemoteEntity c0.relationToken with
    | error e =>
      cases e with
      | notFound =>
        simp only [publishLoop, hg] at hp
        exact ih m0 p hp
      | failed msg =>
        simp only [publishLoop, hg] at hp
        exact ih m0 p hp
    | ok tag =>
      cases hmc : checkMacaroonsForRelation env m0 tag c0 with
      | some e =>
        simp only [publishLoop, hg, hmc] at hp
        exact ih m0 p hp
      | none =>
        cases hpub : env.publishChange tag c0 with
        | some e =>
          simp only [publishLoop, hg, hmc, hpub, List.mem_cons] at hp
          rcases hp with rfl | hp
          · simpa using hg
          · exact ih m0 p hp
        | none =>
          by_cases hl : c0.lifeAlive = true
          · simp only [publishLoop, hg, hmc, hpub, hl, if_pos,
              List.mem_cons] at hp
            rcases hp with rfl | hp
            · simpa using hg
            · exact ih m0 p hp
          · have hl' : c0.lifeAlive = false := by
              revert hl; cases c0.lifeAlive <;> simp
            simp only [publishLoop, hg, hmc, hpub, hl', Bool.false_eq_true,
              if_neg, List.mem_cons] at hp
            rcases hp with rfl | hp
            · simpa using hg
            · exact ih (m0.filter (fun q => !(decide (q.1 = tag)))) p hp

/-- C10: `PublishRelationChanges` returns exactly one result slot per input
change in input order; a change whose relation token is not found is skipped
entirely — its slot carries no error and no publication is attempted for it —
and the call as a whole returns without error. -/
theorem publishRelationChanges_spec (env : CmrEnv) (m0 : List (Nat × Nat))
    (changes : List Change) :
    (publishRelationChanges env m0 changes).results.length = changes.length ∧
    (∀ (i : Nat) (c : Change), changes.get? i = some c →
      env.getRemoteEntity c.relationToken = Except.error LookupErr.notFound →
      (publishRelationChanges env m0 changes).results.get? i = some none) ∧
    (∀ p ∈ (publishRelationChanges env m0 changes).published,
      env.getRemoteEntity p.2.relationToken ≠
        Except.error LookupErr.notFound) ∧
    (publishRelationChanges env m0 changes).callError = none := by
  refine ⟨publishLoop_length env changes m0, ?_, ?_, rfl⟩
  · intro i c h1 h2
    exact publishLoop_notFound env changes m0 i c h1 h2
  · intro p hp
    rw [publishLoop_published env changes m0 p hp]
    simp

/-- Witness for C10: with a concrete environment in which token 1 is not
found, the first change's slot is error-free and the result list is sized to
the two input changes. -/
theorem publishRelationChanges_spec_witness :
    (publishRelationChanges wEnv [] wChanges).results.get? 0 = some none ∧
      (publishRelationChanges wEnv [] wChanges).results.length = 2 :=
  ⟨(publishRelationChanges_spec wEnv [] wChanges).2.1 0 ⟨1, true⟩ rfl rfl,
    (publishRelationChanges_spec wEnv [] wChanges).1⟩

/-- A `Pairwise` relation holds on a mapped list when it holds on every pair
of images. -/
theorem pairwise_map_of_forall {α β : Type} {R : β → β → Prop} {f : α → β}
    (h : ∀ u v : α, R (f u) (f v)) : ∀ l : List α, List.Pairwise R (l.map f)
  | [] => List.Pairwise.nil
  | x :: xs => by
    simp only [List.map_cons]
    exact List.Pairwise.cons
      (fun y hy => by
        rcases List.mem_map.1 hy with ⟨u, _, rfl⟩
        exact h x u)
      (pairwise_map_of_forall h xs)

/-- C3: for every action list returned by `plan`, the actions come in rank
order: all vote-revocations before all vote-grants, all vote-grants before
all member-removals, and all member-removals before all member-additions; in
particular a demoted voting machine has its revoke-vote action strictly
before its remove-member action. -/
theorem plan_actions_ordered (t : Topology) (machines : List Machine) :
    List.Pairwise (fun x y => actionRank x ≤ actionRank y)
      (plan t machines).actions := by
  have rank_mem : ∀ (l : List Nat) (f : Nat → Action) (k : Nat),
      (∀ v, actionRank (f v) = k) → ∀ x ∈ l.map f, actionRank x = k := by
    intro l f k hf x hx
    rcases List.mem_map.1 hx with ⟨u, _, rfl⟩
    exact hf u
  show List.Pairwise (fun x y => actionRank x ≤ actionRank y)
    (_ ++ _ ++ _ ++ _)
  rw [List.pairwise_append, List.pairwise_append, List.pairwise_append]
  refine ⟨⟨⟨?_, ?_, ?_⟩, ?_, ?_⟩, ?_, ?_⟩
  · exact pairwise_map_of_forall (f := Action.revokeVote)
      (fun _ _ => Nat.le.refl) _
  · exact pairwise_map_of_forall (f := Action.grantVote)
      (fun _ _ => Nat.le.refl) _
  · intro x hx y hy
    rw [rank_mem _ Action.revokeVote 0 (fun _ => rfl) x hx,
      rank_mem _ Action.grantVote 1 (fun _ => rfl) y hy]
    omega
  · exact pairwise_map_of_forall (f := Action.removeMember)
      (fun _ _ => Nat.le.refl) _
  · intro x hx y hy
    rw [rank_mem _ Action.removeMember 2 (fun _ => rfl) y hy]
    rcases List.mem_append.1 hx with hx | hx
    · rw [rank_mem _ Action.revokeVote 0 (fun _ => rfl) x hx]; omega
    · rw [rank_mem _ Action.grantVote 1 (fun _ => rfl) x hx]; omega
  · exact pairwise_map_of_forall (f := Action.addMember)
      (fun _ _ => Nat.le.refl) _
  · intro x hx y hy
    rw [rank_mem _ Action.addMember 3 (fun _ => rfl) y hy]
    rcases List.mem_append.1 hx with hx | hx
    · rcases List.mem_append.1 hx with hx | hx
      · rw [rank_mem _ Action.revokeVote 0 (fun _ => rfl) x hx]; omega
      · rw [rank_mem _ Action.grantVote 1 (fun _ => rfl) x hx]; omega
    · rw [rank_mem _ Action.removeMember 2 (fun _ => rfl) x hx]; omega

/-- C5: applying the same action to the consensus store twice in a row (as
after a crash and retry with an ambiguous acknowledgment) yields the same
store state as applying it once; the second application is a no-op. -/
theorem applyAction_idempotent (s : List Member) (a : Action) :
    applyAction (applyAction s a) a = applyAction s a := by
  cases a with
  | revokeVote i =>
    simp only [applyAction, List.map_map]
    refine List.map_congr_left ?_
    intro m _
    by_cases h : m.machineId = i <;> simp [Function.comp, h]
  | grantVote i =>
    simp only [applyAction, List.map_map]
    refine List.map_congr_left ?_
    intro m _
    by_cases h : m.machineId = i <;> simp [Function.comp, h]
  | removeMember i =>
    simp only [applyAction, List.filter_filter]
    exact List.filter_congr (fun m _ => by by_cases h : m.machineId = i <;> simp [h])
  | addMember i =>
    by_cases h : s.any (fun m => decide (m.machineId = i)) = true
    · simp [applyAction, h]
    · have hf : s.any (fun m => decide (m.machineId = i)) = false := by
        revert h
        cases s.any (fun m => decide (m.machineId = i)) <;> simp
      simp [applyAction, hf, List.any_append]

/-- C6: on a store that already holds at least one member the Initializer is
a no-op that returns no error, and a second call after any successful call
leaves the configuration unchanged. -/
theorem initiate_alreadyInitialized (s : List Member) (m : Nat) :
    (1 ≤ s.length → initiateReplicaSet s m = Except.ok s) ∧
    (∀ s1, initiateReplicaSet s m = Except.ok s1 →
      initiateReplicaSet s1 m = Except.ok s1) := by
  constructor
  · intro h
    simp [initiateReplicaSet, h]
  · intro s1 h1
    by_cases h : 1 ≤ s.length
    · simp only [initiateReplicaSet, if_pos h, Except.ok.injEq] at h1
      subst h1
      simp [initiateReplicaSet, h]
    · simp only [initiateReplicaSet, if_neg h, Except.ok.injEq] at h1
      subst h1
      rfl

/-- Witness for C6 at a concrete one-member store. -/
theorem initiate_alreadyInitialized_witness :
    1 ≤ ([⟨0, true⟩] : List Member).length ∧
      initiateReplicaSet [⟨0, true⟩] 1 = Except.ok [⟨0, true⟩] :=
  ⟨by decide, (initiate_alreadyInitialized [⟨0, true⟩] 1).1 (by decide)⟩

/-- C7: `selectAddress` is deterministic — two calls whose machine, machine
address sets and `haSpace` setting are equal return the identical address. -/
theorem selectAddress_deterministic (m1 m2 : MachineAddresses)
    (all1 all2 : List MachineAddresses) (ha1 ha2 : Option Nat)
    (hm : m1 = m2) (hall : all1 = all2) (hha : ha1 = ha2) :
    selectAddress m1 all1 ha1 = selectAddress m2 all2 ha2 := by
  subst hm
  subst hall
  subst hha
  rfl

/-- Witness for C7 at a concrete machine, address set and space. -/
theorem selectAddress_deterministic_witness :
    selectAddress wAddrM [wAddrM] (some 7) = selectAddress wAddrM [wAddrM] (some 7) :=
  selectAddress_deterministic wAddrM wAddrM [wAddrM] [wAddrM] (some 7) (some 7)
    rfl rfl rfl

/-- The running minimum of a fold stays inside the candidate list. -/
theorem foldl_min_mem (rest : List Address) : ∀ a : Address,
    rest.foldl (fun b c => if c.value < b.value then c else b) a ∈ a :: rest := by
  induction rest with
  | nil => intro a; simp
  | cons c cs ih =>
    intro a
    simp only [List.foldl_cons]
    by_cases hv : c.value < a.value
    · rw [if_pos hv]
      have key := ih c
      simp only [List.mem_cons] at key ⊢
      tauto
    · rw [if_neg hv]
      have key := ih a
      simp only [List.mem_cons] at key ⊢
      tauto

/-- `pickFirst` picks an element of the candidate list. -/
theorem pickFirst_mem {l : List Address} {a : Address}
    (h : pickFirst l = some a) : a ∈ l := by
  cases l with
  | nil => simp [pickFirst] at h
  | cons x xs =>
    simp only [pickFirst, Option.some.injEq] at h
    have := foldl_min_mem xs x
    rw [h] at this
    exact this

/-- C8: with `haSpace` configured, `selectAddress` fails with
`NoAddressInSpace` when the machine has no address in that space (it does not
fall back to another address), and otherwise returns one of the machine's
addresses lying in that space. -/
theorem selectAddress_haSpace (m : MachineAddresses)
    (allMachines : List MachineAddresses) (sp : Nat) :
    ((m.addrs.filter (fun a => decide (a.space = sp))) = [] →
        selectAddress m allMachines (some sp) =
          Except.error AddrErr.noAddressInSpace) ∧
    ((m.addrs.filter (fun a => decide (a.space = sp))) ≠ [] →
        ∃ a, selectAddress m allMachines (some sp) = Except.ok a ∧
          a.space = sp ∧ a ∈ m.addrs) := by
  constructor
  · intro h
    simp [selectAddress, h, pickFirst]
  · intro h
    rcases hl : m.addrs.filter (fun a => decide (a.space = sp)) with _ | ⟨x, xs⟩
    · exact absurd hl h
    · have hpick : pickFirst (m.addrs.filter (fun a => decide (a.space = sp))) =
          some (xs.foldl (fun b c => if c.value < b.value then c else b) x) := by
        rw [hl]; rfl
      set a0 := xs.foldl (fun b c => if c.value < b.value then c else b) x with ha0
      have hmem : a0 ∈ m.addrs.filter (fun a => decide (a.space = sp)) :=
        pickFirst_mem hpick
      have hsp : a0.space = sp := by
        have := List.mem_filter.1 hmem
        simpa using this.2
      refine ⟨a0, ?_, hsp, (List.mem_filter.1 hmem).1⟩
      simp [selectAddress, hpick]

/-- Witness for C8: both branches at concrete inputs — space 9 is absent from
the fixture machine's addresses, space 7 is present. -/
theorem selectAddress_haSpace_witness :
    selectAddress wAddrM [wAddrM] (some 9) = Except.error AddrErr.noAddressInSpace ∧
      ∃ a, selectAddress wAddrM [wAddrM] (some 7) = Except.ok a ∧
        a.space = 7 ∧ a ∈ wAddrM.addrs :=
  ⟨(selectAddress_haSpace wAddrM [wAddrM] 9).1 (by decide),
    (selectAddress_haSpace wAddrM [wAddrM] 7).2 (by decide)⟩

end Juju
